import Mathlib

/-!
Verification development for the pot-api job-queue subsystem.

Shallow embedding of:
  - src/jobs.ts / src/queue.ts data model (`Job`, `JobStatus`, `Partial<Job>` patches),
  - `InMemoryBackend` (a JS `Map` plus an expiry sweeper),
  - `BullMQBackend` (a Redis key/value store holding JSON blobs),
  - the background runner `runJob` and the webhook sender `pushWebhook`
    from src/index.ts.

Modelling conventions:
  - Timestamps are `Nat` milliseconds since the epoch (the code stores ISO-8601
    strings and compares them via `new Date(s).getTime()`; the string round-trip
    is an order-preserving bijection into epoch milliseconds).
  - `randomUUID()` is modelled as a fresh-id counter carried in the backend
    state; the spec accepts probability-negligible collision-free id generation
    with no uniqueness re-check, so the model makes freshness explicit.
  - `JSON.stringify` / `JSON.parse` on a job record are modelled as an exact
    embedding of `Job` into a `Blob` type with an extra constructor for blobs
    that fail to deserialize as a job.
  - Asynchronous effects are modelled by explicit state passing; outcomes of
    external calls (`verify`, `fetch`, the Redis client) are passed in as
    explicit values.
-/

namespace PotApi

/-- Verification tier passed through to the engine (`'basic' | 'pro'`). -/
inductive Tier
  | basic
  | pro
deriving DecidableEq, Repr

/-- `JobStatus` from src/jobs.ts: `'pending' | 'running' | 'done' | 'error'`. -/
inductive JobStatus
  | pending
  | running
  | done
  | error
deriving DecidableEq, Repr

/-- The opaque success payload returned by the external verification engine
(`result?: unknown`); its structure is irrelevant to the queue subsystem. -/
structure VerificationResult where
  payload : Nat
deriving DecidableEq, Repr

/-- `Job['input']` from src/jobs.ts. -/
structure JobInput where
  output : String
  question : String
  tier : Tier
  callbackUrl : Option String
deriving DecidableEq, Repr

/-- The `Job` record from src/jobs.ts. Ids are modelled as `Nat`. -/
structure Job where
  id : Nat
  status : JobStatus
  createdAt : Nat
  updatedAt : Nat
  input : JobInput
  result : Option VerificationResult := none
  error : Option String := none
deriving DecidableEq, Repr

/-- `Partial<Job>`: every field optionally present. `none` means the field is
absent from the patch object. -/
structure JobPatch where
  id : Option Nat := none
  status : Option JobStatus := none
  createdAt : Option Nat := none
  updatedAt : Option Nat := none
  input : Option JobInput := none
  result : Option VerificationResult := none
  error : Option String := none
deriving DecidableEq, Repr

/-- Merge semantics shared by both backends:
`Object.assign(job, patch, { updatedAt: new Date().toISOString() })` in the
in-memory backend and `{ ...job, ...patch, updatedAt: ... }` in the BullMQ
backend. Every field present in the patch overrides the stored field, and the
trailing `updatedAt` source overrides both. -/
def applyPatch (job : Job) (p : JobPatch) (now : Nat) : Job where
  id := p.id.getD job.id
  status := p.status.getD job.status
  createdAt := p.createdAt.getD job.createdAt
  updatedAt := now
  input := p.input.getD job.input
  result := match p.result with
    | some r => some r
    | none => job.result
  error := match p.error with
    | some e => some e
    | none => job.error

/-! ### Association-list model of the JS `Map` / Redis keyspace -/

/-- `Map.prototype.get` / a keyed read: first entry with the given key. -/
def assocGet {β : Type} (s : List (Nat × β)) (k : Nat) : Option β :=
  match s with
  | [] => none
  | (k', v) :: rest => if k' = k then some v else assocGet rest k

/-- `Map.prototype.set` / a keyed write: overwrite in place if the key exists,
append otherwise. -/
def assocSet {β : Type} (s : List (Nat × β)) (k : Nat) (v : β) : List (Nat × β) :=
  match s with
  | [] => [(k, v)]
  | (k', v') :: rest =>
    if k' = k then (k, v) :: rest else (k', v') :: assocSet rest k v

theorem assocGet_assocSet_self {β : Type} (s : List (Nat × β)) (k : Nat) (v : β) :
    assocGet (assocSet s k v) k = some v := by
  induction s with
  | nil => simp [assocGet, assocSet]
  | cons hd tl ih =>
    by_cases h : hd.1 = k
    · simp [assocGet, assocSet, h]
    · simp [assocGet, assocSet, h, ih]

theorem assocGet_assocSet_ne {β : Type} (s : List (Nat × β)) (k k₂ : Nat) (v : β)
    (h : k ≠ k₂) : assocGet (assocSet s k v) k₂ = assocGet s k₂ := by
  induction s with
  | nil => simp [assocGet, assocSet, h]
  | cons hd tl ih =>
    by_cases hk : hd.1 = k
    · simp [assocGet, assocSet, hk, h]
    · by_cases hk₂ : hd.1 = k₂
      · simp [assocGet, assocSet, hk, hk₂, Ne.symm h]
      · simp [assocGet, assocSet, hk, hk₂, ih]

/-! ### In-memory backend (src/queue.ts, `InMemoryBackend`) -/

/-- Retention window of the in-memory sweeper: records older than 1 hour are
evicted (`60 * 60 * 1000` in the source). -/
def retentionMs : Nat := 60 * 60 * 1000

/-- Period of the in-memory sweeper: `setInterval(..., 10 * 60 * 1000)`. -/
def sweepIntervalMs : Nat := 10 * 60 * 1000

/-- State of `InMemoryBackend`: the private `Map<string, Job>` plus the fresh-id
counter modelling `randomUUID()`. -/
structure InMemState where
  store : List (Nat × Job)
  nextId : Nat
deriving DecidableEq, Repr

namespace InMemoryBackend

/-- `InMemoryBackend.createJob`: build `{ id: randomUUID(), status: 'pending',
createdAt: now, updatedAt: now, input }`, store it under its id, return it. -/
def createJob (st : InMemState) (input : JobInput) (now : Nat) : Job × InMemState :=
  let job : Job :=
    { id := st.nextId, status := .pending, createdAt := now, updatedAt := now,
      input := input }
  (job, { store := assocSet st.store job.id job, nextId := st.nextId + 1 })

/-- `InMemoryBackend.getJob`: `this.store.get(id)`. -/
def getJob (st : InMemState) (id : Nat) : Option Job :=
  assocGet st.store id

/-- `InMemoryBackend.updateJob`: look the record up; if absent do nothing,
otherwise `Object.assign(job, patch, { updatedAt: now })` in place. -/
def updateJob (st : InMemState) (id : Nat) (patch : JobPatch) (now : Nat) : InMemState :=
  match assocGet st.store id with
  | none => st
  | some job => { st with store := assocSet st.store id (applyPatch job patch now) }

/-- One run of the expiry sweeper (the `setInterval` callback): delete every
entry with `new Date(job.createdAt).getTime() < Date.now() - 60 * 60 * 1000`.
The comparison is on JS numbers, hence on `Int` here. -/
def sweep (st : InMemState) (now : Nat) : InMemState :=
  { st with
    store := st.store.filter (fun kv => ¬ ((kv.2.createdAt : Int) < (now : Int) - (retentionMs : Int))) }

end InMemoryBackend

/-! ### BullMQ (Redis) backend (src/queue.ts, `BullMQBackend`)

The Redis keyspace is modelled as an association list from ids to blobs
(the `pot-api:jobs:` prefix is a fixed injective decoration of the id and is
dropped). `'EX' 86400` is recorded as the constant `jobTtlSeconds`; no claim
concerns the durable backend's native expiry. -/

/-- A value stored under a job key: either the JSON serialization of a job
record, or bytes that fail to deserialize as one (`JSON.parse` throws or yields
a non-job). -/
inductive Blob
  | valid (j : Job)
  | corrupt (raw : String)
deriving DecidableEq, Repr

/-- `JSON.stringify(job)`. -/
def serializeJob (j : Job) : Blob := .valid j

/-- `try { return JSON.parse(raw) as Job } catch { return undefined }`. -/
def parseJob : Blob → Option Job
  | .valid j => some j
  | .corrupt _ => none

/-- TTL passed on every durable write: `'EX', 86400` (24 hours). -/
def jobTtlSeconds : Nat := 86400

/-- State of `BullMQBackend` under a healthy connection: the keyspace plus the
fresh-id counter modelling `randomUUID()`. -/
structure BullState where
  kv : List (Nat × Blob)
  nextId : Nat
deriving DecidableEq, Repr

namespace BullMQBackend

/-- `BullMQBackend.createJob`: build the same pending record and
`client.set(key(job.id), JSON.stringify(job), 'EX', 86400)`. -/
def createJob (st : BullState) (input : JobInput) (now : Nat) : Job × BullState :=
  let job : Job :=
    { id := st.nextId, status := .pending, createdAt := now, updatedAt := now,
      input := input }
  (job, { kv := assocSet st.kv job.id (serializeJob job), nextId := st.nextId + 1 })

/-- `BullMQBackend.getJob` under a healthy connection: read the blob; a missing
key returns `undefined`, otherwise `try JSON.parse catch undefined`. -/
def getJob (st : BullState) (id : Nat) : Option Job :=
  match assocGet st.kv id with
  | none => none
  | some raw => parseJob raw

/-- `BullMQBackend.updateJob`: read the record via `getJob`; if absent return;
otherwise write `{ ...job, ...patch, updatedAt: now }` serialized under
`key(job.id)` — note: the key is derived from the deserialized record's `id`
field, not from the requested `id`. -/
def updateJob (st : BullState) (id : Nat) (patch : JobPatch) (now : Nat) : BullState :=
  match getJob st id with
  | none => st
  | some job =>
    { st with kv := assocSet st.kv job.id (serializeJob (applyPatch job patch now)) }

end BullMQBackend

/-! ### Durable backend at the level of a single Redis client response

For the fail-soft claims the outcome of `await this.client.get(key)` must be
modelled explicitly, since a rejected client command propagates: in
`BullMQBackend.getJob` there is no `try`/`catch` around the `await` of the
client call, only around `JSON.parse`. -/

/-- Outcome of `await this.client.get(key)`: the promise resolves with the blob
(or `null` for a missing key), or rejects with a connection-level error. -/
inductive ClientGetOutcome
  | resolved (blob : Option Blob)
  | rejected (msg : String)
deriving DecidableEq, Repr

/-- `BullMQBackend.getJob` as a function of the client response:
`const raw = await this.client.get(...); if (!raw) return undefined;
try { return JSON.parse(raw) as Job } catch { return undefined }`.
A rejection of the client call is not caught and rethrows to the caller. -/
def bullGetJobOfResponse (resp : ClientGetOutcome) : Except String (Option Job) :=
  match resp with
  | .rejected msg => .error msg
  | .resolved none => .ok none
  | .resolved (some raw) => .ok (parseJob raw)

/-! ### Job runner and webhook dispatcher (src/index.ts) -/

/-- The HTTP request `pushWebhook` issues:
`fetch(url, { method: 'POST', headers: { 'Content-Type': 'application/json' },
body: JSON.stringify(payload), signal: AbortSignal.timeout(10_000) })`. -/
structure WebhookRequest where
  url : String
  method : String
  contentType : String
  bodyJobId : Nat
  bodyStatus : JobStatus
  bodyResult : Option VerificationResult
  bodyError : Option String
  timeoutMs : Nat
deriving DecidableEq, Repr

/-- Outcome of the `fetch` call inside `pushWebhook`: any HTTP response (the
status code is never inspected), or a thrown failure (network error, or the
10-second `AbortSignal` timeout). -/
inductive FetchOutcome
  | response (statusCode : Nat)
  | thrown (err : String)
deriving DecidableEq, Repr

/-- The request object `pushWebhook` constructs for a terminal payload
`{ jobId, status, result | error }`. -/
def mkWebhookRequest (url : String) (jobId : Nat) (status : JobStatus)
    (result : Option VerificationResult) (error : Option String) : WebhookRequest where
  url := url
  method := "POST"
  contentType := "application/json"
  bodyJobId := jobId
  bodyStatus := status
  bodyResult := result
  bodyError := error
  timeoutMs := 10000

/-- `pushWebhook`: one `fetch` attempt wrapped in `try`/`catch`; on any thrown
failure it logs a warning (`console.warn`) and returns normally. The returned
`Bool` records whether the warning was logged; the function is total — no
failure escapes it, and it touches no job state. -/
def pushWebhook (url : String) (jobId : Nat) (status : JobStatus)
    (result : Option VerificationResult) (error : Option String)
    (fetched : FetchOutcome) : Bool :=
  match fetched with
  | .response _ => false
  | .thrown _ => true

/-- One step the runner takes, in program order. `updateCall` is an
`updateJob(jobId, patch)` call; `verifyCall` is the issuing of the awaited
`verify(...)` call; `webhookCall` is an awaited `pushWebhook(...)` call. -/
inductive RunEvent
  | updateCall (patch : JobPatch)
  | verifyCall
  | webhookCall (req : WebhookRequest)
deriving DecidableEq, Repr

/-- `runJob` from src/index.ts as the sequence of effects it performs, given
the outcome of the awaited `verify` call (`.ok result` or a thrown error whose
message is extracted by `err instanceof Error ? err.message : String(err)`):
first `updateJob(jobId, { status: 'running' })`, then the verification call,
then exactly one terminal `updateJob`, then — only if a callback URL was
supplied — one webhook attempt. -/
def runJob (jobId : Nat) (callbackUrl : Option String)
    (verifyOutcome : Except String VerificationResult) : List RunEvent :=
  [.updateCall { status := some .running }, .verifyCall] ++
  match verifyOutcome with
  | .ok result =>
    [.updateCall { status := some .done, result := some result }] ++
    (match callbackUrl with
     | some url => [.webhookCall (mkWebhookRequest url jobId .done (some result) none)]
     | none => [])
  | .error err =>
    [.updateCall { status := some .error, error := some err }] ++
    (match callbackUrl with
     | some url => [.webhookCall (mkWebhookRequest url jobId .error none (some err))]
     | none => [])

/-- The `updateJob` patches of a runner trace, in order. -/
def updatePatches (events : List RunEvent) : List JobPatch :=
  events.filterMap (fun e => match e with
    | .updateCall p => some p
    | _ => none)

/-- The webhook requests of a runner trace, in order. -/
def webhookRequests (events : List RunEvent) : List WebhookRequest :=
  events.filterMap (fun e => match e with
    | .webhookCall r => some r
    | _ => none)

/-- Apply a list of runner update patches to a job record in order, each at its
own timestamp (`applyPatch` is the merge both backends perform on a stored
record). Returns every intermediate record, starting with the initial one. -/
def lifecycleStates (job : Job) : List JobPatch → List Nat → List Job
  | [], _ => [job]
  | _ :: _, [] => [job]
  | p :: ps, t :: ts => job :: lifecycleStates (applyPatch job p t) ps ts

/-- The data-model invariant of §3: `result` is present iff the job is done,
`error` is present iff the job is errored (hence exactly one of the two in a
terminal state and neither while pending or running). -/
def resultErrorInvariant (j : Job) : Prop :=
  (j.result.isSome ↔ j.status = .done) ∧ (j.error.isSome ↔ j.status = .error)

instance (j : Job) : Decidable (resultErrorInvariant j) := by
  unfold resultErrorInvariant
  infer_instance

/-! ### Well-formedness and backend correspondence -/

/-- Well-formedness of the in-memory state: the JS `Map` has no duplicate keys,
and every stored key was handed out by the fresh-id source. -/
def InMemState.wf (st : InMemState) : Prop :=
  (st.store.map Prod.fst).Nodup ∧ ∀ kv ∈ st.store, kv.1 < st.nextId

/-- Well-formedness of the durable state, mirroring `InMemState.wf`. -/
def BullState.wf (st : BullState) : Prop :=
  (st.kv.map Prod.fst).Nodup ∧ ∀ kv ∈ st.kv, kv.1 < st.nextId

instance (st : InMemState) : Decidable st.wf := by
  unfold InMemState.wf
  infer_instance

instance (st : BullState) : Decidable st.wf := by
  unfold BullState.wf
  infer_instance

/-- Correspondence between the two backends: same fresh-id source, the Redis
keyspace is the in-memory map with every record serialized, and every stored
record's `id` field equals its key (true of everything the system itself
writes). -/
def BackendsAgree (stM : InMemState) (stB : BullState) : Prop :=
  stB.nextId = stM.nextId ∧
  stB.kv = stM.store.map (fun kv => (kv.1, serializeJob kv.2)) ∧
  ∀ kv ∈ stM.store, kv.2.id = kv.1

instance (stM : InMemState) (stB : BullState) : Decidable (BackendsAgree stM stB) := by
  unfold BackendsAgree
  infer_instance

/-- One call through the queue facade (src/queue.ts convenience wrappers),
with its timestamp where the operation reads the clock. -/
inductive QueueOp
  | create (input : JobInput) (now : Nat)
  | fetch (id : Nat)
  | update (id : Nat) (patch : JobPatch) (now : Nat)
deriving DecidableEq, Repr

/-- The value a facade call returns to its caller. -/
inductive OpResult
  | created (j : Job)
  | fetched (j : Option Job)
  | updated
deriving DecidableEq, Repr

/-- Run a sequence of facade calls against the in-memory backend, collecting
the values returned to callers. -/
def runOpsMem : InMemState → List QueueOp → List OpResult
  | _, [] => []
  | st, .create input now :: ops =>
    let r := InMemoryBackend.createJob st input now
    .created r.1 :: runOpsMem r.2 ops
  | st, .fetch id :: ops =>
    .fetched (InMemoryBackend.getJob st id) :: runOpsMem st ops
  | st, .update id patch now :: ops =>
    .updated :: runOpsMem (InMemoryBackend.updateJob st id patch now) ops

/-- Run a sequence of facade calls against the durable backend, collecting the
values returned to callers. -/
def runOpsBull : BullState → List QueueOp → List OpResult
  | _, [] => []
  | st, .create input now :: ops =>
    let r := BullMQBackend.createJob st input now
    .created r.1 :: runOpsBull r.2 ops
  | st, .fetch id :: ops =>
    .fetched (BullMQBackend.getJob st id) :: runOpsBull st ops
  | st, .update id patch now :: ops =>
    .updated :: runOpsBull (BullMQBackend.updateJob st id patch now) ops

/-- `true` unless the operation is an update whose patch carries an `id` field
(the system itself only ever patches `status`, `result` and `error`). -/
def patchKeepsId : QueueOp → Bool
  | .update _ patch _ => patch.id.isNone
  | _ => true

/-- An operation sequence in which no update patch carries an `id` field. -/
def noIdPatches (ops : List QueueOp) : Prop :=
  ∀ op ∈ ops, patchKeepsId op = true

instance (ops : List QueueOp) : Decidable (noIdPatches ops) := by
  unfold noIdPatches
  infer_instance

/-- Fold a list of sweeper firings (each with the clock value it reads) over
the in-memory state. -/
def sweeps (st : InMemState) (times : List Nat) : InMemState :=
  times.foldl InMemoryBackend.sweep st

/-! ### Lemmas about the association-list store -/

theorem mem_assocSet {β : Type} {s : List (Nat × β)} {k : Nat} {v : β} {kv : Nat × β}
    (h : kv ∈ assocSet s k v) : kv ∈ s ∨ kv = (k, v) := by
  induction s with
  | nil => simpa [assocSet] using h
  | cons hd tl ih =>
    by_cases hk : hd.1 = k
    · simp only [assocSet, hk, if_pos] at h
      rcases List.mem_cons.mp h with h | h
      · right; exact h
      · left; exact List.mem_cons_of_mem _ h
    · simp only [assocSet, hk, if_neg, not_false_iff] at h
      rcases List.mem_cons.mp h with h | h
      · left; simp [h]
      · rcases ih h with h | h
        · left; exact List.mem_cons_of_mem _ h
        · right; exact h

theorem assocGet_eq_none_iff {β : Type} {s : List (Nat × β)} {k : Nat} :
    assocGet s k = none ↔ ∀ kv ∈ s, kv.1 ≠ k := by
  induction s with
  | nil => simp [assocGet]
  | cons hd tl ih =>
    by_cases hk : hd.1 = k
    · simp [assocGet, hk]
    · simp only [assocGet, hk, if_neg, not_false_iff, ih, List.mem_cons]
      constructor
      · rintro h kv (rfl | hm)
        · exact hk
        · exact h kv hm
      · intro h kv hm
        exact h kv (Or.inr hm)

theorem assocGet_mem {β : Type} {s : List (Nat × β)} {k : Nat} {v : β}
    (h : assocGet s k = some v) : (k, v) ∈ s := by
  induction s with
  | nil => simp [assocGet] at h
  | cons hd tl ih =>
    by_cases hk : hd.1 = k
    · simp only [assocGet, hk, if_pos, Option.some.injEq] at h
      subst h
      have hhd : (k, hd.2) = hd := by rw [← hk]
      rw [hhd]
      exact List.mem_cons_self _ _
    · simp only [assocGet, hk, if_neg, not_false_iff] at h
      exact List.mem_cons_of_mem _ (ih h)

theorem assoc_value_unique {β : Type} {s : List (Nat × β)} {k : Nat} {v w : β}
    (hnd : (s.map Prod.fst).Nodup) (hv : (k, v) ∈ s) (hw : (k, w) ∈ s) : v = w := by
  induction s with
  | nil => simp at hv
  | cons hd tl ih =>
    rw [List.map_cons, List.nodup_cons] at hnd
    rcases List.mem_cons.mp hv with hv | hv
    · rcases List.mem_cons.mp hw with hw | hw
      · rw [← hv] at hw
        exact (congrArg Prod.snd hw).symm
      · exact absurd (by simpa [← hv] using List.mem_map_of_mem Prod.fst hw) hnd.1
    · rcases List.mem_cons.mp hw with hw | hw
      · exact absurd (by simpa [← hw] using List.mem_map_of_mem Prod.fst hv) hnd.1
      · exact ih hnd.2 hv hw

theorem assocSet_keys_nodup {β : Type} {s : List (Nat × β)} {k : Nat} {v : β}
    (h : (s.map Prod.fst).Nodup) : ((assocSet s k v).map Prod.fst).Nodup := by
  induction s with
  | nil => simp [assocSet]
  | cons hd tl ih =>
    rw [List.map_cons, List.nodup_cons] at h
    by_cases hk : hd.1 = k
    · subst hk
      have hset : assocSet (hd :: tl) hd.1 v = (hd.1, v) :: tl := by simp [assocSet]
      rw [hset, List.map_cons, List.nodup_cons]
      exact ⟨h.1, h.2⟩
    · simp only [assocSet, hk, if_neg, not_false_iff, List.map_cons, List.nodup_cons]
      refine ⟨?_, ih h.2⟩
      intro hmem
      rcases List.mem_map.mp hmem with ⟨kv, hkv, hfst⟩
      rcases mem_assocSet hkv with hkv | hkv
      · exact h.1 (hfst ▸ List.mem_map_of_mem Prod.fst hkv)
      · exact hk (by rw [← hfst, hkv])

theorem assocGet_filter_keep {β : Type} (p : Nat × β → Bool) (s : List (Nat × β))
    (k : Nat) (v : β) (h : assocGet s k = some v) (hp : p (k, v) = true) :
    assocGet (s.filter p) k = some v := by
  induction s with
  | nil => simp [assocGet] at h
  | cons hd tl ih =>
    by_cases hk : hd.1 = k
    · simp only [assocGet, hk, if_pos, Option.some.injEq] at h
      subst h
      have hhd : (k, hd.2) = hd := by rw [← hk]
      rw [hhd] at hp
      simp only [List.filter_cons, hp, assocGet, hk, if_pos]
    · simp only [assocGet, hk, if_neg, not_false_iff] at h
      rcases hpd : p hd with _ | _
      · simpa [List.filter_cons, hpd] using ih h
      · simpa [List.filter_cons, hpd, assocGet, hk] using ih h

theorem assocGet_filter_none {β : Type} (p : Nat × β → Bool) (s : List (Nat × β))
    (k : Nat) (h : assocGet s k = none) : assocGet (s.filter p) k = none := by
  rw [assocGet_eq_none_iff] at h ⊢
  intro kv hm
  exact h kv (List.mem_of_mem_filter hm)

theorem assocGet_filter_drop {β : Type} (p : Nat × β → Bool) (s : List (Nat × β))
    (k : Nat) (v : β) (hnd : (s.map Prod.fst).Nodup)
    (h : assocGet s k = some v) (hp : p (k, v) = false) :
    assocGet (s.filter p) k = none := by
  rw [assocGet_eq_none_iff]
  intro kv hm hk
  have hmem : kv ∈ s := List.mem_of_mem_filter hm
  have hpkv : p kv = true := List.of_mem_filter hm
  have hkv : (k, kv.2) = kv := by rw [← hk]
  have heq : kv.2 = v := assoc_value_unique hnd (hkv ▸ hmem) (assocGet_mem h)
  rw [← hkv, heq, hp] at hpkv
  exact Bool.false_ne_true hpkv

theorem assocGet_map_serialize (s : List (Nat × Job)) (k : Nat) :
    assocGet (s.map (fun kv => (kv.1, serializeJob kv.2))) k
      = (assocGet s k).map serializeJob := by
  induction s with
  | nil => simp [assocGet]
  | cons hd tl ih =>
    by_cases hk : hd.1 = k <;> simp [assocGet, hk, ih]

theorem assocSet_map_serialize (s : List (Nat × Job)) (k : Nat) (v : Job) :
    assocSet (s.map (fun kv => (kv.1, serializeJob kv.2))) k (serializeJob v)
      = (assocSet s k v).map (fun kv => (kv.1, serializeJob kv.2)) := by
  induction s with
  | nil => simp [assocSet]
  | cons hd tl ih =>
    by_cases hk : hd.1 = k <;> simp [assocSet, hk, ih]

/-! ### Well-formedness preservation -/

theorem createJob_wf_mem (st : InMemState) (input : JobInput) (now : Nat)
    (h : st.wf) : (InMemoryBackend.createJob st input now).2.wf := by
  refine ⟨assocSet_keys_nodup h.1, ?_⟩
  intro kv hkv
  rcases mem_assocSet hkv with hkv | hkv
  · exact Nat.lt_succ_of_lt (h.2 kv hkv)
  · rw [hkv]
    exact Nat.lt_succ_self _

theorem createJob_wf_bull (st : BullState) (input : JobInput) (now : Nat)
    (h : st.wf) : (BullMQBackend.createJob st input now).2.wf := by
  refine ⟨assocSet_keys_nodup h.1, ?_⟩
  intro kv hkv
  rcases mem_assocSet hkv with hkv | hkv
  · exact Nat.lt_succ_of_lt (h.2 kv hkv)
  · rw [hkv]
    exact Nat.lt_succ_self _

theorem updateJob_wf_mem (st : InMemState) (id : Nat) (patch : JobPatch) (now : Nat)
    (h : st.wf) : (InMemoryBackend.updateJob st id patch now).wf := by
  unfold InMemoryBackend.updateJob
  rcases hg : assocGet st.store id with _ | job
  · exact h
  · refine ⟨assocSet_keys_nodup h.1, ?_⟩
    intro kv hkv
    rcases mem_assocSet hkv with hkv | hkv
    · exact h.2 kv hkv
    · rw [hkv]
      simpa using h.2 (id, job) (assocGet_mem hg)

theorem sweep_wf (st : InMemState) (t : Nat) (h : st.wf) :
    (InMemoryBackend.sweep st t).wf := by
  constructor
  · exact h.1.sublist ((List.filter_sublist _).map Prod.fst)
  · intro kv hkv
    exact h.2 kv (List.mem_of_mem_filter hkv)

/-! ### Sweeper behavior on a single record -/

theorem getJob_sweep_keep (st : InMemState) (t id : Nat) (j : Job)
    (h : InMemoryBackend.getJob st id = some j)
    (hfresh : ¬ ((j.createdAt : Int) < (t : Int) - (retentionMs : Int))) :
    InMemoryBackend.getJob (InMemoryBackend.sweep st t) id = some j := by
  unfold InMemoryBackend.getJob InMemoryBackend.sweep at *
  exact assocGet_filter_keep _ _ _ _ h (by simpa using hfresh)

theorem getJob_sweep_evict (st : InMemState) (t id : Nat) (j : Job)
    (hnd : (st.store.map Prod.fst).Nodup)
    (h : InMemoryBackend.getJob st id = some j)
    (hold : (j.createdAt : Int) < (t : Int) - (retentionMs : Int)) :
    InMemoryBackend.getJob (InMemoryBackend.sweep st t) id = none := by
  unfold InMemoryBackend.getJob InMemoryBackend.sweep at *
  exact assocGet_filter_drop _ _ _ _ hnd h (by simp; omega)

theorem getJob_sweep_none (st : InMemState) (t id : Nat)
    (h : InMemoryBackend.getJob st id = none) :
    InMemoryBackend.getJob (InMemoryBackend.sweep st t) id = none := by
  unfold InMemoryBackend.getJob InMemoryBackend.sweep at *
  exact assocGet_filter_none _ _ _ h

theorem getJob_sweeps_keep (ts : List Nat) (st : InMemState) (id : Nat) (j : Job)
    (h : InMemoryBackend.getJob st id = some j)
    (hts : ∀ t ∈ ts, ¬ ((j.createdAt : Int) < (t : Int) - (retentionMs : Int))) :
    InMemoryBackend.getJob (sweeps st ts) id = some j := by
  induction ts generalizing st with
  | nil => exact h
  | cons t ts ih =>
    exact ih _ (getJob_sweep_keep st t id j h (hts t (List.mem_cons_self _ _)))
      (fun u hu => hts u (List.mem_cons_of_mem _ hu))

theorem getJob_sweeps_none (ts : List Nat) (st : InMemState) (id : Nat)
    (h : InMemoryBackend.getJob st id = none) :
    InMemoryBackend.getJob (sweeps st ts) id = none := by
  induction ts generalizing st with
  | nil => exact h
  | cons t ts ih => exact ih _ (getJob_sweep_none st t id h)

theorem sweeps_wf (ts : List Nat) (st : InMemState) (h : st.wf) : (sweeps st ts).wf := by
  induction ts generalizing st with
  | nil => exact h
  | cons t ts ih => exact ih _ (sweep_wf st t h)

theorem getJob_sweeps_cases (ts : List Nat) (st : InMemState) (id : Nat) (j : Job)
    (hwf : st.wf) (h : InMemoryBackend.getJob st id = some j) :
    InMemoryBackend.getJob (sweeps st ts) id = some j ∨
    InMemoryBackend.getJob (sweeps st ts) id = none := by
  induction ts generalizing st with
  | nil => exact Or.inl h
  | cons t ts ih =>
    by_cases hc : (j.createdAt : Int) < (t : Int) - (retentionMs : Int)
    · exact Or.inr (getJob_sweeps_none ts _ id (getJob_sweep_evict st t id j hwf.1 h hc))
    · exact ih _ (sweep_wf st t hwf) (getJob_sweep_keep st t id j h hc)

/-! ### Correspondence of the two backends under facade operations -/

theorem getJob_agree (stM : InMemState) (stB : BullState) (id : Nat)
    (hrel : BackendsAgree stM stB) :
    BullMQBackend.getJob stB id = InMemoryBackend.getJob stM id := by
  unfold BullMQBackend.getJob InMemoryBackend.getJob
  rw [hrel.2.1, assocGet_map_serialize]
  cases assocGet stM.store id <;> simp [parseJob, serializeJob]

theorem createJob_agree (stM : InMemState) (stB : BullState) (input : JobInput) (now : Nat)
    (hrel : BackendsAgree stM stB) :
    (BullMQBackend.createJob stB input now).1 = (InMemoryBackend.createJob stM input now).1 ∧
    BackendsAgree (InMemoryBackend.createJob stM input now).2
      (BullMQBackend.createJob stB input now).2 := by
  obtain ⟨hn, hmap, hinv⟩ := hrel
  refine ⟨?_, ?_, ?_, ?_⟩
  · unfold BullMQBackend.createJob InMemoryBackend.createJob
    simp [hn]
  · simp [BullMQBackend.createJob, InMemoryBackend.createJob, hn]
  · unfold BullMQBackend.createJob InMemoryBackend.createJob
    simp only []
    rw [hn, hmap, assocSet_map_serialize]
  · intro kv hkvmem
    rcases mem_assocSet hkvmem with hm | hm
    · exact hinv kv hm
    · rw [hm]

theorem updateJob_agree (stM : InMemState) (stB : BullState) (id : Nat) (patch : JobPatch)
    (now : Nat) (hrel : BackendsAgree stM stB) (hid : patch.id = none) :
    BackendsAgree (InMemoryBackend.updateJob stM id patch now)
      (BullMQBackend.updateJob stB id patch now) := by
  obtain ⟨hn, hmap, hinv⟩ := hrel
  unfold BullMQBackend.updateJob InMemoryBackend.updateJob
  rw [getJob_agree stM stB id ⟨hn, hmap, hinv⟩]
  unfold InMemoryBackend.getJob
  rcases hg : assocGet stM.store id with _ | j
  · exact ⟨hn, hmap, hinv⟩
  · have hjid : j.id = id := hinv (id, j) (assocGet_mem hg)
    have happ : (applyPatch j patch now).id = j.id := by simp [applyPatch, hid]
    refine ⟨hn, ?_, ?_⟩
    · simp only []
      rw [hmap, hjid, assocSet_map_serialize]
    · intro kv hkvm
      rcases mem_assocSet hkvm with hm | hm
      · exact hinv kv hm
      · rw [hm]
        simp [happ, hjid]

theorem runOps_agree (ops : List QueueOp) (stM : InMemState) (stB : BullState)
    (hrel : BackendsAgree stM stB) (hops : noIdPatches ops) :
    runOpsBull stB ops = runOpsMem stM ops := by
  induction ops generalizing stM stB with
  | nil => rfl
  | cons op ops ih =>
    rcases op with ⟨input, now⟩ | id | ⟨id, patch, now⟩
    · obtain ⟨hjob, hrel2⟩ := createJob_agree stM stB input now hrel
      simp only [runOpsMem, runOpsBull, hjob]
      rw [ih _ _ hrel2 (fun op hop => hops op (List.mem_cons_of_mem _ hop))]
    · simp only [runOpsMem, runOpsBull, getJob_agree stM stB id hrel]
      rw [ih _ _ hrel (fun op hop => hops op (List.mem_cons_of_mem _ hop))]
    · have hid : patch.id = none := by
        have hk := hops _ (List.mem_cons_self _ _)
        simpa [patchKeepsId, Option.isNone_iff_eq_none] using hk
      simp only [runOpsMem, runOpsBull]
      rw [ih _ _ (updateJob_agree stM stB id patch now hrel hid)
        (fun op hop => hops op (List.mem_cons_of_mem _ hop))]

/-! ## Claim theorems -/

/-- C1: in both backends, `createJob` returns a record with a freshly generated
id distinct from every stored id, status `pending`, `createdAt = updatedAt =`
the creation time, no result and no error, and the record is persisted so that
`getJob` on the new id immediately returns it (well-formedness is preserved, so
this holds along any chain of creations). -/
theorem createJob_fresh_pending_persisted
    (stM : InMemState) (stB : BullState) (input : JobInput) (now : Nat)
    (hM : stM.wf) (hB : stB.wf) :
    ((InMemoryBackend.createJob stM input now).1.status = .pending ∧
     (InMemoryBackend.createJob stM input now).1.createdAt = now ∧
     (InMemoryBackend.createJob stM input now).1.updatedAt = now ∧
     (InMemoryBackend.createJob stM input now).1.result = none ∧
     (InMemoryBackend.createJob stM input now).1.error = none ∧
     (∀ kv ∈ stM.store, kv.1 ≠ (InMemoryBackend.createJob stM input now).1.id) ∧
     InMemoryBackend.getJob (InMemoryBackend.createJob stM input now).2
       (InMemoryBackend.createJob stM input now).1.id
       = some (InMemoryBackend.createJob stM input now).1 ∧
     (InMemoryBackend.createJob stM input now).2.wf) ∧
    ((BullMQBackend.createJob stB input now).1.status = .pending ∧
     (BullMQBackend.createJob stB input now).1.createdAt = now ∧
     (BullMQBackend.createJob stB input now).1.updatedAt = now ∧
     (BullMQBackend.createJob stB input now).1.result = none ∧
     (BullMQBackend.createJob stB input now).1.error = none ∧
     (∀ kv ∈ stB.kv, kv.1 ≠ (BullMQBackend.createJob stB input now).1.id) ∧
     BullMQBackend.getJob (BullMQBackend.createJob stB input now).2
       (BullMQBackend.createJob stB input now).1.id
       = some (BullMQBackend.createJob stB input now).1 ∧
     (BullMQBackend.createJob stB input now).2.wf) := by
  refine ⟨⟨rfl, rfl, rfl, rfl, rfl, ?_, ?_, createJob_wf_mem stM input now hM⟩,
          ⟨rfl, rfl, rfl, rfl, rfl, ?_, ?_, createJob_wf_bull stB input now hB⟩⟩
  · intro kv hkv
    exact Nat.ne_of_lt (hM.2 kv hkv)
  · unfold InMemoryBackend.getJob InMemoryBackend.createJob
    exact assocGet_assocSet_self _ _ _
  · intro kv hkv
    exact Nat.ne_of_lt (hB.2 kv hkv)
  · unfold BullMQBackend.getJob BullMQBackend.createJob
    simp only []
    rw [assocGet_assocSet_self]
    rfl

theorem createJob_fresh_pending_persisted_witness :
    InMemState.wf ⟨[], 0⟩ ∧ BullState.wf ⟨[], 0⟩ ∧
    (InMemoryBackend.getJob
        (InMemoryBackend.createJob ⟨[], 0⟩ ⟨"o", "q", .basic, none⟩ 3).2
        (InMemoryBackend.createJob ⟨[], 0⟩ ⟨"o", "q", .basic, none⟩ 3).1.id
      = some (InMemoryBackend.createJob ⟨[], 0⟩ ⟨"o", "q", .basic, none⟩ 3).1) ∧
    (BullMQBackend.getJob
        (BullMQBackend.createJob ⟨[], 0⟩ ⟨"o", "q", .basic, none⟩ 3).2
        (BullMQBackend.createJob ⟨[], 0⟩ ⟨"o", "q", .basic, none⟩ 3).1.id
      = some (BullMQBackend.createJob ⟨[], 0⟩ ⟨"o", "q", .basic, none⟩ 3).1) :=
  ⟨by decide, by decide,
   (createJob_fresh_pending_persisted ⟨[], 0⟩ ⟨[], 0⟩ ⟨"o", "q", .basic, none⟩ 3
     (by decide) (by decide)).1.2.2.2.2.2.2.1,
   (createJob_fresh_pending_persisted ⟨[], 0⟩ ⟨[], 0⟩ ⟨"o", "q", .basic, none⟩ 3
     (by decide) (by decide)).2.2.2.2.2.2.2.1⟩

/-- C4: in both backends, `updateJob` on an id that is not in the store is a
no-op: it returns without error, creates no record, and leaves the state
completely unchanged. -/
theorem updateJob_unknown_id_noop
    (stM : InMemState) (stB : BullState) (id : Nat) (patch : JobPatch) (now : Nat)
    (hM : InMemoryBackend.getJob stM id = none)
    (hB : BullMQBackend.getJob stB id = none) :
    InMemoryBackend.updateJob stM id patch now = stM ∧
    BullMQBackend.updateJob stB id patch now = stB := by
  constructor
  · unfold InMemoryBackend.updateJob
    unfold InMemoryBackend.getJob at hM
    rw [hM]
  · unfold BullMQBackend.updateJob
    rw [hB]

theorem updateJob_unknown_id_noop_witness :
    InMemoryBackend.getJob ⟨[], 0⟩ 7 = none ∧
    BullMQBackend.getJob ⟨[], 0⟩ 7 = none ∧
    InMemoryBackend.updateJob ⟨[], 0⟩ 7 { status := some .done } 5 = ⟨[], 0⟩ ∧
    BullMQBackend.updateJob ⟨[], 0⟩ 7 { status := some .done } 5 = ⟨[], 0⟩ :=
  ⟨by decide, by decide,
   (updateJob_unknown_id_noop ⟨[], 0⟩ ⟨[], 0⟩ 7 { status := some .done } 5
     (by decide) (by decide)).1,
   (updateJob_unknown_id_noop ⟨[], 0⟩ ⟨[], 0⟩ 7 { status := some .done } 5
     (by decide) (by decide)).2⟩

/-- C10: in both backends, `updateJob` on an existing record stores exactly the
patch merge whose `updatedAt` is the time of the update itself — the trailing
`updatedAt` source overrides any `updatedAt` value the caller put in the
patch. -/
theorem updateJob_overrides_patch_updatedAt
    (stM : InMemState) (stB : BullState) (id : Nat) (patch : JobPatch) (now : Nat)
    (jM jB : Job)
    (hM : InMemoryBackend.getJob stM id = some jM)
    (hB : BullMQBackend.getJob stB id = some jB) :
    InMemoryBackend.getJob (InMemoryBackend.updateJob stM id patch now) id
      = some (applyPatch jM patch now) ∧
    BullMQBackend.getJob (BullMQBackend.updateJob stB id patch now) jB.id
      = some (applyPatch jB patch now) ∧
    (applyPatch jM patch now).updatedAt = now ∧
    (applyPatch jB patch now).updatedAt = now := by
  refine ⟨?_, ?_, rfl, rfl⟩
  · unfold InMemoryBackend.updateJob
    unfold InMemoryBackend.getJob at hM ⊢
    rw [hM]
    exact assocGet_assocSet_self _ _ _
  · unfold BullMQBackend.updateJob
    rw [hB]
    unfold BullMQBackend.getJob
    simp only []
    rw [assocGet_assocSet_self]
    rfl

theorem updateJob_overrides_patch_updatedAt_witness :
    InMemoryBackend.getJob
      ⟨[(0, { id := 0, status := .pending, createdAt := 2, updatedAt := 2,
              input := ⟨"o", "q", .basic, none⟩ })], 1⟩ 0
      = some { id := 0, status := .pending, createdAt := 2, updatedAt := 2,
               input := ⟨"o", "q", .basic, none⟩ } ∧
    BullMQBackend.getJob
      ⟨[(0, .valid { id := 0, status := .pending, createdAt := 2, updatedAt := 2,
                     input := ⟨"o", "q", .basic, none⟩ })], 1⟩ 0
      = some { id := 0, status := .pending, createdAt := 2, updatedAt := 2,
               input := ⟨"o", "q", .basic, none⟩ } ∧
    (applyPatch
      { id := 0, status := .pending, createdAt := 2, updatedAt := 2,
        input := ⟨"o", "q", .basic, none⟩ }
      { updatedAt := some 999 } 5).updatedAt = 5 :=
  ⟨by decide, by decide,
   (updateJob_overrides_patch_updatedAt
     ⟨[(0, { id := 0, status := .pending, createdAt := 2, updatedAt := 2,
             input := ⟨"o", "q", .basic, none⟩ })], 1⟩
     ⟨[(0, .valid { id := 0, status := .pending, createdAt := 2, updatedAt := 2,
                    input := ⟨"o", "q", .basic, none⟩ })], 1⟩
     0 { updatedAt := some 999 } 5
     { id := 0, status := .pending, createdAt := 2, updatedAt := 2,
       input := ⟨"o", "q", .basic, none⟩ }
     { id := 0, status := .pending, createdAt := 2, updatedAt := 2,
       input := ⟨"o", "q", .basic, none⟩ }
     (by decide) (by decide)).2.2.1⟩

/-- C8 counterexample: `updateJob` merges every field present in the patch, so
a patch carrying `createdAt` (or `input`) overwrites them — the record below
was created with `createdAt = 2`, and after
`updateJob 0 { createdAt: 999 }` at time 5 the stored `createdAt` is 999.
The claim that `createdAt` and `input` survive "every updateJob call with any
patch" is therefore false. -/
theorem updateJob_patch_overwrites_createdAt :
    (InMemoryBackend.getJob
      (InMemoryBackend.updateJob
        ⟨[(0, { id := 0, status := .pending, createdAt := 2, updatedAt := 2,
                input := ⟨"o", "q", .basic, none⟩ })], 1⟩
        0 { createdAt := some 999 } 5)
      0).map Job.createdAt = some 999 ∧ (999 : Nat) ≠ 2 := by
  exact ⟨by decide, by decide⟩

/-- C8 amended: `updateJob` changes exactly the fields present in the patch,
plus `updatedAt`. Hence `createdAt` and `input` are unchanged by every
`updateJob` whose patch omits them — which is the case for every patch the
system issues (the runner only patches `status`, `result` and `error`) — but
they are not immutable against an arbitrary patch. -/
theorem updateJob_immutable_fields_amended
    (stM : InMemState) (stB : BullState) (id : Nat) (patch : JobPatch) (now : Nat)
    (jM jB : Job)
    (hM : InMemoryBackend.getJob stM id = some jM)
    (hB : BullMQBackend.getJob stB id = some jB)
    (hc : patch.createdAt = none) (hi : patch.input = none) :
    (InMemoryBackend.getJob (InMemoryBackend.updateJob stM id patch now) id
       = some (applyPatch jM patch now) ∧
     (applyPatch jM patch now).createdAt = jM.createdAt ∧
     (applyPatch jM patch now).input = jM.input) ∧
    (BullMQBackend.getJob (BullMQBackend.updateJob stB id patch now) jB.id
       = some (applyPatch jB patch now) ∧
     (applyPatch jB patch now).createdAt = jB.createdAt ∧
     (applyPatch jB patch now).input = jB.input) ∧
    (∀ j : Job, patch.id = none → (applyPatch j patch now).id = j.id) ∧
    (∀ j : Job, patch.status = none → (applyPatch j patch now).status = j.status) ∧
    (∀ j : Job, patch.result = none → (applyPatch j patch now).result = j.result) ∧
    (∀ j : Job, patch.error = none → (applyPatch j patch now).error = j.error) := by
  refine ⟨⟨?_, by simp [applyPatch, hc], by simp [applyPatch, hi]⟩,
          ⟨?_, by simp [applyPatch, hc], by simp [applyPatch, hi]⟩,
          fun j h => by simp [applyPatch, h],
          fun j h => by simp [applyPatch, h],
          fun j h => by simp [applyPatch, h],
          fun j h => by simp [applyPatch, h]⟩
  · unfold InMemoryBackend.updateJob
    unfold InMemoryBackend.getJob at hM ⊢
    rw [hM]
    exact assocGet_assocSet_self _ _ _
  · unfold BullMQBackend.updateJob
    rw [hB]
    unfold BullMQBackend.getJob
    simp only []
    rw [assocGet_assocSet_self]
    rfl

theorem updateJob_immutable_fields_amended_witness :
    InMemoryBackend.getJob
      ⟨[(0, { id := 0, status := .pending, createdAt := 2, updatedAt := 2,
              input := ⟨"o", "q", .basic, none⟩ })], 1⟩ 0
      = some { id := 0, status := .pending, createdAt := 2, updatedAt := 2,
               input := ⟨"o", "q", .basic, none⟩ } ∧
    (applyPatch
      { id := 0, status := .pending, createdAt := 2, updatedAt := 2,
        input := ⟨"o", "q", .basic, none⟩ }
      { status := some .running } 5).createdAt = 2 :=
  ⟨by decide,
   ((updateJob_immutable_fields_amended
     ⟨[(0, { id := 0, status := .pending, createdAt := 2, updatedAt := 2,
             input := ⟨"o", "q", .basic, none⟩ })], 1⟩
     ⟨[(0, .valid { id := 0, status := .pending, createdAt := 2, updatedAt := 2,
                    input := ⟨"o", "q", .basic, none⟩ })], 1⟩
     0 { status := some .running } 5
     { id := 0, status := .pending, createdAt := 2, updatedAt := 2,
       input := ⟨"o", "q", .basic, none⟩ }
     { id := 0, status := .pending, createdAt := 2, updatedAt := 2,
       input := ⟨"o", "q", .basic, none⟩ }
     (by decide) (by decide) rfl rfl).1.2.1)⟩

/-- C6 counterexample: a rejected Redis command is not caught inside
`BullMQBackend.getJob` — there is no `try`/`catch` around
`await this.client.get(...)`, only around `JSON.parse` — so a connection-level
error propagates to the caller instead of surfacing as not-found. -/
theorem bull_connection_error_propagates :
    bullGetJobOfResponse (.rejected "connection refused")
      = .error "connection refused" ∧
    bullGetJobOfResponse (.rejected "connection refused") ≠ .ok none := by
  exact ⟨rfl, by simp [bullGetJobOfResponse]⟩

/-- C6 amended: the durable backend's `getJob` is fail-soft for a missing key
and for a blob that fails to deserialize — both return not-found rather than
throwing — and it faithfully returns a valid blob; but a connection-level
rejection of the client command itself propagates to the caller (only the
client's `error` events are logged). -/
theorem bull_getJob_fail_soft_amended :
    bullGetJobOfResponse (.resolved none) = .ok none ∧
    (∀ raw, bullGetJobOfResponse (.resolved (some (.corrupt raw))) = .ok none) ∧
    (∀ j, bullGetJobOfResponse (.resolved (some (.valid j))) = .ok (some j)) ∧
    (∀ msg, bullGetJobOfResponse (.rejected msg) = .error msg) := by
  exact ⟨rfl, fun _ => rfl, fun _ => rfl, fun _ => rfl⟩

/-- C7: the sweeper fires every 10 minutes and, each time it runs, removes
exactly the records whose `createdAt` lies strictly more than the 1-hour
retention window in the past — regardless of status, since the predicate never
consults it. Consequently a job created at time `T` survives every sweep at or
before `T + retentionMs` (in particular it is still retrievable at `T + 59`
minutes), and once any sweep fires strictly after `T + retentionMs` (e.g. at
`T + 61` minutes) the job is no longer retrievable, also under further
sweeps. -/
theorem sweeper_interval_retention
    (st : InMemState) (input : JobInput) (T : Nat) (hwf : st.wf) :
    sweepIntervalMs = 10 * 60 * 1000 ∧
    retentionMs = 60 * 60 * 1000 ∧
    (∀ (t id : Nat) (j : Job), InMemoryBackend.getJob st id = some j →
      (((j.createdAt : Int) < (t : Int) - (retentionMs : Int)) →
        InMemoryBackend.getJob (InMemoryBackend.sweep st t) id = none) ∧
      (¬ ((j.createdAt : Int) < (t : Int) - (retentionMs : Int)) →
        InMemoryBackend.getJob (InMemoryBackend.sweep st t) id = some j)) ∧
    (∀ ts : List Nat, (∀ t ∈ ts, (t : Int) ≤ (T : Int) + (retentionMs : Int)) →
      InMemoryBackend.getJob (sweeps (InMemoryBackend.createJob st input T).2 ts)
          (InMemoryBackend.createJob st input T).1.id
        = some (InMemoryBackend.createJob st input T).1) ∧
    (∀ (ts : List Nat) (t₂ : Nat) (ts₂ : List Nat),
      (T : Int) + (retentionMs : Int) < (t₂ : Int) →
      InMemoryBackend.getJob
          (sweeps
            (InMemoryBackend.sweep
              (sweeps (InMemoryBackend.createJob st input T).2 ts) t₂)
            ts₂)
          (InMemoryBackend.createJob st input T).1.id
        = none) := by
  have hcreate :
      InMemoryBackend.getJob (InMemoryBackend.createJob st input T).2
        (InMemoryBackend.createJob st input T).1.id
        = some (InMemoryBackend.createJob st input T).1 := by
    unfold InMemoryBackend.getJob InMemoryBackend.createJob
    exact assocGet_assocSet_self _ _ _
  have hcAt : (InMemoryBackend.createJob st input T).1.createdAt = T := rfl
  refine ⟨rfl, rfl, ?_, ?_, ?_⟩
  · intro t id j h
    exact ⟨fun hold => getJob_sweep_evict st t id j hwf.1 h hold,
           fun hfresh => getJob_sweep_keep st t id j h hfresh⟩
  · intro ts hts
    refine getJob_sweeps_keep ts _ _ _ hcreate ?_
    intro t ht
    rw [hcAt]
    have := hts t ht
    omega
  · intro ts t₂ ts₂ ht₂
    have hwf₁ : (InMemoryBackend.createJob st input T).2.wf :=
      createJob_wf_mem st input T hwf
    rcases getJob_sweeps_cases ts _ _ _ hwf₁ hcreate with hkeep | hnone
    · refine getJob_sweeps_none ts₂ _ _ ?_
      refine getJob_sweep_evict _ t₂ _ _ (sweeps_wf ts _ hwf₁).1 hkeep ?_
      rw [hcAt]
      omega
    · exact getJob_sweeps_none ts₂ _ _ (getJob_sweep_none _ t₂ _ hnone)

theorem sweeper_interval_retention_witness :
    InMemState.wf ⟨[], 0⟩ ∧
    InMemoryBackend.getJob
        (sweeps (InMemoryBackend.createJob ⟨[], 0⟩ ⟨"o", "q", .basic, none⟩ 0).2
          [59 * 60 * 1000])
        (InMemoryBackend.createJob ⟨[], 0⟩ ⟨"o", "q", .basic, none⟩ 0).1.id
      = some (InMemoryBackend.createJob ⟨[], 0⟩ ⟨"o", "q", .basic, none⟩ 0).1 ∧
    InMemoryBackend.getJob
        (sweeps
          (InMemoryBackend.sweep
            (sweeps (InMemoryBackend.createJob ⟨[], 0⟩ ⟨"o", "q", .basic, none⟩ 0).2
              [59 * 60 * 1000])
            (61 * 60 * 1000))
          [])
        (InMemoryBackend.createJob ⟨[], 0⟩ ⟨"o", "q", .basic, none⟩ 0).1.id
      = none :=
  ⟨by decide,
   (sweeper_interval_retention ⟨[], 0⟩ ⟨"o", "q", .basic, none⟩ 0
     (by decide)).2.2.2.1 [59 * 60 * 1000]
     (by intro t ht; simp at ht; subst ht; norm_num [retentionMs]),
   (sweeper_interval_retention ⟨[], 0⟩ ⟨"o", "q", .basic, none⟩ 0
     (by decide)).2.2.2.2 [59 * 60 * 1000] (61 * 60 * 1000) [] (by norm_num [retentionMs])⟩

/-- C2: for every verify outcome and callback option, the runner's trace is
`updateJob {status: running}` — the verification call — exactly one terminal
`updateJob` (done on success, error on failure) — and nothing but webhook
events afterwards; applied to a pending record, the observed status sequence
is `pending, running, terminal`, so a job is never done or error without
having passed through running, and no transition follows the terminal one. -/
theorem runner_transitions_ordered (jobId : Nat) (cb : Option String)
    (outcome : Except String VerificationResult) (job : Job) (t₁ t₂ : Nat)
    (hjob : job.status = .pending) :
    ∃ (p : JobPatch) (term : JobStatus) (tail : List RunEvent),
      (term = .done ∨ term = .error) ∧
      p.status = some term ∧
      ((term = .done) ↔ ∃ r, outcome = .ok r) ∧
      runJob jobId cb outcome
        = .updateCall { status := some .running } :: .verifyCall :: .updateCall p :: tail ∧
      (∀ e ∈ tail, ∀ q, e ≠ .updateCall q) ∧
      updatePatches (runJob jobId cb outcome) = [{ status := some .running }, p] ∧
      (lifecycleStates job (updatePatches (runJob jobId cb outcome)) [t₁, t₂]).map Job.status
        = [.pending, .running, term] := by
  rcases outcome with err | r
  · rcases cb with _ | url
    · exact ⟨{ status := some .error, error := some err }, .error, [],
        Or.inr rfl, rfl, by simp, rfl, by simp, rfl,
        by simp [lifecycleStates, updatePatches, runJob, applyPatch, hjob]⟩
    · exact ⟨{ status := some .error, error := some err }, .error,
        [.webhookCall (mkWebhookRequest url jobId .error none (some err))],
        Or.inr rfl, rfl, by simp, rfl, by simp, rfl,
        by simp [lifecycleStates, updatePatches, runJob, applyPatch, hjob]⟩
  · rcases cb with _ | url
    · exact ⟨{ status := some .done, result := some r }, .done, [],
        Or.inl rfl, rfl, by simp, rfl, by simp, rfl,
        by simp [lifecycleStates, updatePatches, runJob, applyPatch, hjob]⟩
    · exact ⟨{ status := some .done, result := some r }, .done,
        [.webhookCall (mkWebhookRequest url jobId .done (some r) none)],
        Or.inl rfl, rfl, by simp, rfl, by simp, rfl,
        by simp [lifecycleStates, updatePatches, runJob, applyPatch, hjob]⟩

theorem runner_transitions_ordered_witness :
    Job.status
      { id := 0, status := .pending, createdAt := 0, updatedAt := 0,
        input := ⟨"o", "q", .basic, none⟩ } = .pending ∧
    (∃ (p : JobPatch) (term : JobStatus) (tail : List RunEvent),
      (term = .done ∨ term = .error) ∧
      p.status = some term ∧
      ((term = .done) ↔
        ∃ r, (Except.ok ⟨7⟩ : Except String VerificationResult) = .ok r) ∧
      runJob 0 (some "https://cb.example") (.ok ⟨7⟩)
        = .updateCall { status := some .running } :: .verifyCall :: .updateCall p :: tail ∧
      (∀ e ∈ tail, ∀ q, e ≠ .updateCall q) ∧
      updatePatches (runJob 0 (some "https://cb.example") (.ok ⟨7⟩))
        = [{ status := some .running }, p] ∧
      (lifecycleStates
          { id := 0, status := .pending, createdAt := 0, updatedAt := 0,
            input := ⟨"o", "q", .basic, none⟩ }
          (updatePatches (runJob 0 (some "https://cb.example") (.ok ⟨7⟩))) [1, 2]).map
          Job.status
        = [.pending, .running, term]) :=
  ⟨rfl,
   runner_transitions_ordered 0 (some "https://cb.example") (.ok ⟨7⟩)
     { id := 0, status := .pending, createdAt := 0, updatedAt := 0,
       input := ⟨"o", "q", .basic, none⟩ } 1 2 rfl⟩

/-- C3: every record reachable through the lifecycle — the record `createJob`
returns, then the results of the runner's successive `updateJob` merges —
satisfies the exclusivity invariant: `result` is present iff the status is
done, `error` is present iff the status is error, and neither is present while
pending or running. -/
theorem lifecycle_result_error_exclusive
    (st : InMemState) (input : JobInput) (now jobId : Nat) (cb : Option String)
    (outcome : Except String VerificationResult) (t₁ t₂ : Nat) :
    ∀ j ∈ lifecycleStates (InMemoryBackend.createJob st input now).1
        (updatePatches (runJob jobId cb outcome)) [t₁, t₂],
      resultErrorInvariant j := by
  intro j hj
  rcases outcome with r | err <;> rcases cb with _ | url <;>
    simp only [runJob, updatePatches, List.filterMap, lifecycleStates,
      List.cons_append, List.nil_append, List.mem_cons, List.not_mem_nil,
      or_false] at hj <;>
    rcases hj with rfl | rfl | rfl <;>
    simp [resultErrorInvariant, applyPatch, InMemoryBackend.createJob]

theorem lifecycle_result_error_exclusive_witness :
    (InMemoryBackend.createJob ⟨[], 0⟩ ⟨"o", "q", .basic, none⟩ 0).1
      ∈ lifecycleStates (InMemoryBackend.createJob ⟨[], 0⟩ ⟨"o", "q", .basic, none⟩ 0).1
        (updatePatches (runJob 0 none (.error "boom"))) [1, 2] ∧
    resultErrorInvariant (InMemoryBackend.createJob ⟨[], 0⟩ ⟨"o", "q", .basic, none⟩ 0).1 :=
  ⟨by decide,
   lifecycle_result_error_exclusive ⟨[], 0⟩ ⟨"o", "q", .basic, none⟩ 0 0 none
     (.error "boom") 1 2 _ (by decide)⟩

/-- C5 counterexample: the claim treats a non-success HTTP status code as a
failure that, like the others, is "logged and swallowed" — but `pushWebhook`
never inspects the response: only a thrown `fetch` failure reaches the
`catch` that logs (`console.warn`). For a 500 response nothing is logged
(result `false`), while a thrown failure is logged (result `true`), so the
three failure kinds are not treated alike. -/
theorem webhook_nonsuccess_not_logged :
    pushWebhook "https://cb.example" 0 .done none none (.response 500) = false ∧
    pushWebhook "https://cb.example" 0 .done none none (.thrown "timeout") = true := by
  exact ⟨rfl, rfl⟩

/-- C5 amended: webhook delivery is attempted at most once per job, only after
the terminal `updateJob` and only if a callback URL was supplied; the attempt
is an HTTP POST with a `Content-Type` header and a 10-second timeout; a thrown
failure (network error or timeout) is logged and swallowed, a non-success HTTP
status code is silently ignored (not logged, not distinguished from success);
in every case nothing changes the job record, nothing is retried, and nothing
surfaces to any caller. -/
theorem webhook_single_attempt_bounded_swallowed (jobId : Nat) (cb : Option String)
    (outcome : Except String VerificationResult) :
    (webhookRequests (runJob jobId cb outcome)).length ≤ 1 ∧
    (cb = none → webhookRequests (runJob jobId cb outcome) = []) ∧
    (∀ url, cb = some url →
      ∃ req, webhookRequests (runJob jobId cb outcome) = [req] ∧
        req.url = url ∧ req.method = "POST" ∧
        req.contentType = "application/json" ∧ req.timeoutMs = 10000 ∧
        req.bodyJobId = jobId ∧
        ((req.bodyStatus = .done ∧ req.bodyError = none) ∨
         (req.bodyStatus = .error ∧ req.bodyResult = none))) ∧
    (∃ (p : JobPatch) (tail : List RunEvent),
      runJob jobId cb outcome
        = .updateCall { status := some .running } :: .verifyCall :: .updateCall p :: tail ∧
      webhookRequests tail = webhookRequests (runJob jobId cb outcome) ∧
      (∀ e ∈ tail, ∀ q, e ≠ .updateCall q)) ∧
    (∀ (url : String) (j : Nat) (s : JobStatus) (r : Option VerificationResult)
       (e : Option String) (m : String), pushWebhook url j s r e (.thrown m) = true) ∧
    (∀ (url : String) (j : Nat) (s : JobStatus) (r : Option VerificationResult)
       (e : Option String) (c : Nat), pushWebhook url j s r e (.response c) = false) := by
  refine ⟨?_, ?_, ?_, ?_, fun _ _ _ _ _ _ => rfl, fun _ _ _ _ _ _ => rfl⟩
  · rcases outcome with err | r <;> rcases cb with _ | url <;>
      simp [runJob, webhookRequests]
  · intro hcb
    subst hcb
    rcases outcome with err | r <;> simp [runJob, webhookRequests]
  · intro url hcb
    subst hcb
    rcases outcome with err | r
    · exact ⟨mkWebhookRequest url jobId .error none (some err),
        by simp [runJob, webhookRequests], rfl, rfl, rfl, rfl, rfl, Or.inr ⟨rfl, rfl⟩⟩
    · exact ⟨mkWebhookRequest url jobId .done (some r) none,
        by simp [runJob, webhookRequests], rfl, rfl, rfl, rfl, rfl, Or.inl ⟨rfl, rfl⟩⟩
  · rcases outcome with err | r <;> rcases cb with _ | url
    · exact ⟨{ status := some .error, error := some err }, [], rfl, rfl, by simp⟩
    · exact ⟨{ status := some .error, error := some err },
        [.webhookCall (mkWebhookRequest url jobId .error none (some err))],
        rfl, by simp [runJob, webhookRequests], by simp⟩
    · exact ⟨{ status := some .done, result := some r }, [], rfl, rfl, by simp⟩
    · exact ⟨{ status := some .done, result := some r },
        [.webhookCall (mkWebhookRequest url jobId .done (some r) none)],
        rfl, by simp [runJob, webhookRequests], by simp⟩

theorem webhook_single_attempt_bounded_swallowed_witness :
    (webhookRequests (runJob 0 (some "https://cb.example") (.ok ⟨7⟩))).length ≤ 1 ∧
    (∀ url, some "https://cb.example" = some url →
      ∃ req, webhookRequests (runJob 0 (some "https://cb.example") (.ok ⟨7⟩)) = [req] ∧
        req.url = url ∧ req.method = "POST" ∧
        req.contentType = "application/json" ∧ req.timeoutMs = 10000 ∧
        req.bodyJobId = 0 ∧
        ((req.bodyStatus = .done ∧ req.bodyError = none) ∨
         (req.bodyStatus = .error ∧ req.bodyResult = none))) :=
  ⟨(webhook_single_attempt_bounded_swallowed 0 (some "https://cb.example") (.ok ⟨7⟩)).1,
   (webhook_single_attempt_bounded_swallowed 0 (some "https://cb.example") (.ok ⟨7⟩)).2.2.1⟩

/-- C9 counterexample: the backends are not observationally identical for
every facade sequence. After a patch that rewrites the stored record's `id`
field, a later `updateJob` through the in-memory backend mutates the record in
place under the original key, while the durable backend writes the merged
record under the key derived from the record's (patched) `id` field
(`this.key(job.id)`), leaving the stale record under the original key — so the
final `getJob` returns different records. -/
theorem backend_divergence_on_id_patch :
    runOpsMem ⟨[], 0⟩
      [.create ⟨"o", "q", .basic, none⟩ 0,
       .update 0 { id := some 1 } 1,
       .update 0 { status := some .running } 2,
       .fetch 0]
    ≠ runOpsBull ⟨[], 0⟩
      [.create ⟨"o", "q", .basic, none⟩ 0,
       .update 0 { id := some 1 } 1,
       .update 0 { status := some .running } 2,
       .fetch 0] := by
  decide

/-- C9 amended: restricted to facade sequences in which no update patch
carries an `id` field — which is every sequence the system itself produces,
since the runner only patches `status`, `result` and `error` — the two
backends return identical results to callers, starting from any pair of
corresponding states (in particular from the two empty initial states). -/
theorem backend_equivalence_amended (ops : List QueueOp)
    (stM : InMemState) (stB : BullState)
    (hrel : BackendsAgree stM stB) (hops : noIdPatches ops) :
    runOpsBull stB ops = runOpsMem stM ops :=
  runOps_agree ops stM stB hrel hops

theorem backend_equivalence_amended_witness :
    BackendsAgree ⟨[], 0⟩ ⟨[], 0⟩ ∧
    noIdPatches
      [.create ⟨"o", "q", .basic, none⟩ 0,
       .update 0 { status := some .running } 1,
       .update 0 { status := some .done, result := some ⟨7⟩ } 2,
       .fetch 0, .fetch 5] ∧
    runOpsBull ⟨[], 0⟩
      [.create ⟨"o", "q", .basic, none⟩ 0,
       .update 0 { status := some .running } 1,
       .update 0 { status := some .done, result := some ⟨7⟩ } 2,
       .fetch 0, .fetch 5]
    = runOpsMem ⟨[], 0⟩
      [.create ⟨"o", "q", .basic, none⟩ 0,
       .update 0 { status := some .running } 1,
       .update 0 { status := some .done, result := some ⟨7⟩ } 2,
       .fetch 0, .fetch 5] :=
  ⟨by decide, by decide,
   backend_equivalence_amended
     [.create ⟨"o", "q", .basic, none⟩ 0,
      .update 0 { status := some .running } 1,
      .update 0 { status := some .done, result := some ⟨7⟩ } 2,
      .fetch 0, .fetch 5]
     ⟨[], 0⟩ ⟨[], 0⟩ (by decide) (by decide)⟩

end PotApi
